import Mathlib

/-!
Shallow embedding of the streaming jitter buffer / playback scheduler in
`src/ts/audio/opus-player.ts` (class `OpusPlayer`), and proofs of the spec's
claims about it.

Modelling conventions:
* Audio samples are modelled as rationals (`ℚ`); the scheduler only moves
  samples around, never computes with their values, so exact arithmetic is
  faithful.  Time values (`startTime`, the sink's `currentTime`, buffer
  durations) are `ℚ`.
* The decoder and the WebAudio sink are external collaborators: the decode
  result is a parameter of `feed`, and the sink's `currentTime` is a parameter
  of `flush`.  `flush` returns the buffer it hands to the sink (if any)
  together with the scheduled start time.
* JavaScript behaviour mirrored explicitly: the `x || y` fallback treats `0`
  as falsy (`jsOrNat`); `_decodedSampleRate == null` is an `Option.isNone`
  test; a thrown exception is reported as a `FeedError` next to the state at
  the throw point.  An out-of-range typed-array read yields `undefined`
  (stored as NaN); it is modelled by the `getD` default `0` — no claim below
  depends on the value read out of range, and the in-bounds conditions are
  analysed separately (`interleaveReadsInBounds`).
* `fullFrames` uses natural-number division, which agrees with the source's
  `Math.floor(length / frameSize)` whenever `frameSize > 0`.  With
  `frameSize = 0` the JavaScript quotient is `NaN` or `Infinity` (never
  `=== 0`) and `createBuffer` throws; theorems about the emitting branch
  therefore carry a `0 < frameSize` hypothesis.
-/

namespace OpusPlayer

/-- The `encoding` option of `OpusPlayerOptions` (decode hint only). -/
inductive Encoding
  | int8
  | int16
  | int32
  | float32
deriving DecidableEq

/-- `OpusPlayerOptions` after `initOptions` fills the defaults: all fields
present (`Required<OpusPlayerOptions>`). -/
structure Options where
  encoding : Encoding
  channels : ℕ
  sampleRate : ℕ
  flushingTime : ℕ
deriving DecidableEq

/-- The defaults merged in `initOptions`. -/
def defaultOptions : Options :=
  { encoding := Encoding.int16, channels := 2, sampleRate := 48000, flushingTime := 20 }

/-- State of one `OpusPlayer` instance: the backlog `samples`, the virtual
clock `startTime`, the lazily latched decoded format, the recurring timer and
the sink's open/closed status. -/
structure PlayerState where
  option : Options
  samples : List ℚ
  startTime : ℚ
  decodedSampleRate : Option ℕ
  decodedChannels : Option ℕ
  timerActive : Bool
  sinkClosed : Bool
deriving DecidableEq

/-- Result of `decoder.decodeFrame`: planar per-channel sample arrays plus the
decoder's sample rate. -/
structure DecodeResult where
  channelData : List (List ℚ)
  sampleRate : ℕ
deriving DecidableEq

/-- The facets of an arbitrary JavaScript value that `feed` inspects: the
three truthiness/type tests of `isTypedArray`, and the declared
`byteOffset`/`byteLength` of the view against the actual byte length of its
backing `ArrayBuffer`. -/
structure FeedInput where
  truthy : Bool
  byteLengthIsNumber : Bool
  bufferIsArrayBuffer : Bool
  byteLength : ℕ
  byteOffset : ℕ
  bufferByteLength : ℕ
deriving DecidableEq

/-- `isTypedArray`: `!!data && typeof data.byteLength === 'number' &&
data.buffer instanceof ArrayBuffer`. -/
def isTypedArray (data : FeedInput) : Bool :=
  data.truthy && data.byteLengthIsNumber && data.bufferIsArrayBuffer

/-- Exceptions `feed` can raise: `RangeError` from the
`new Uint8Array(buffer, byteOffset, byteLength)` constructor when the declared
range exceeds the backing buffer, `TypeError` from `channelData[0].length`
when the decoder returns no channels, and a decoder failure. -/
inductive FeedError
  | rangeError
  | typeError
  | decodeError
deriving DecidableEq

/-- The interleave loop of `feed`: `ch = channelData.length`,
`len = channelData[0].length`, and `inter[i * ch + c] = channelData[c][i]`
written in loop order (outer `i`, inner `c`). -/
def interleave (channelData : List (List ℚ)) : List ℚ :=
  ((List.range (channelData.headD []).length).map (fun i =>
    (List.range channelData.length).map (fun c =>
      ((channelData.getD c []).getD i 0)))).flatten

/-- One `feed(data)` call, with the decoder's outcome passed in (`decoded`).
Returns the state after the call together with the exception raised, if any
(the state component is the state at the moment of the throw). -/
def feed (s : PlayerState) (data : FeedInput) (decoded : Except Unit DecodeResult) :
    PlayerState × Option FeedError :=
  if !(isTypedArray data) then (s, none)
  else if data.bufferByteLength < data.byteOffset + data.byteLength then
    (s, some FeedError.rangeError)
  else
    match decoded with
    | Except.error _ => (s, some FeedError.decodeError)
    | Except.ok r =>
      let s1 :=
        if (s.decodedSampleRate).isNone then
          { s with decodedSampleRate := some r.sampleRate,
                   decodedChannels := some r.channelData.length }
        else s
      if r.channelData.isEmpty then (s1, some FeedError.typeError)
      else ({ s1 with samples := s1.samples ++ interleave r.channelData }, none)

/-- JavaScript `x || y` on a possibly-unset number: falls back when `x` is
`undefined` or `0` (both falsy). -/
def jsOrNat (x : Option ℕ) (d : ℕ) : ℕ :=
  match x with
  | none => d
  | some v => if v = 0 then d else v

/-- `flush`'s `sr = this._decodedSampleRate || this.option.sampleRate`. -/
def effSampleRate (s : PlayerState) : ℕ :=
  jsOrNat s.decodedSampleRate s.option.sampleRate

/-- `flush`'s `channels = this._decodedChannels || this.option.channels`. -/
def effChannels (s : PlayerState) : ℕ :=
  jsOrNat s.decodedChannels s.option.channels

/-- `frameSamples = Math.floor((sr * this.option.flushingTime) / 1000)`. -/
def frameSamples (s : PlayerState) : ℕ :=
  effSampleRate s * s.option.flushingTime / 1000

/-- `frameSize = frameSamples * channels`. -/
def frameSize (s : PlayerState) : ℕ :=
  frameSamples s * effChannels s

/-- `fullFrames = Math.floor(this.samples.length / frameSize)`. -/
def fullFrames (s : PlayerState) : ℕ :=
  s.samples.length / frameSize s

/-- The de-interleave loop of `flush`: channel `c` of the output buffer reads
`samples[c + i * channels]` for frame `i < bufferLen`. -/
def deinterleave (channels bufferLen : ℕ) (samples : List ℚ) : List (List ℚ) :=
  (List.range channels).map (fun c =>
    (List.range bufferLen).map (fun i => samples.getD (i * channels + c) 0))

/-- The buffer `flush` hands to the sink: an `AudioBuffer` of `bufferLen`
frames × `channels` channels at `sampleRate`, scheduled via
`src.start(start)`. -/
structure EmittedBuffer where
  channels : ℕ
  bufferLen : ℕ
  sampleRate : ℕ
  channelData : List (List ℚ)
  start : ℚ
deriving DecidableEq

/-- `AudioBuffer.duration = length / sampleRate` (seconds). -/
def EmittedBuffer.duration (b : EmittedBuffer) : ℚ :=
  (b.bufferLen : ℚ) / (b.sampleRate : ℚ)

/-- One `flush()` invocation, with the sink's `currentTime` passed in as
`now`.  Returns the state after the call and the buffer emitted, if any. -/
def flush (s : PlayerState) (now : ℚ) : PlayerState × Option EmittedBuffer :=
  if fullFrames s = 0 then (s, none)
  else
    let totalSamples := fullFrames s * frameSize s
    let bufferLen := frameSamples s * fullFrames s
    let start := if s.startTime < now then now else s.startTime
    let buf : EmittedBuffer :=
      { channels := effChannels s
        bufferLen := bufferLen
        sampleRate := effSampleRate s
        channelData := deinterleave (effChannels s) bufferLen s.samples
        start := start }
    ({ s with startTime := start + buf.duration,
              samples := s.samples.drop totalSamples },
     some buf)

/-- `destroy()`: `clearInterval`, reset the backlog, `audioCtx.close()`. -/
def destroy (s : PlayerState) : PlayerState :=
  { s with timerActive := false, samples := [], sinkClosed := true }

/-- The state reached by a sequence of `flush` calls at the given sink
times. -/
def flushSeq (s : PlayerState) (ts : List ℚ) : PlayerState :=
  ts.foldl (fun s t => (flush s t).1) s

/-- Channel-wise concatenation of a sequence of planar blocks, all with `ch`
channels: the decoded data that feeding everything as one block would carry. -/
def chanConcat (ch : ℕ) (blocks : List (List (List ℚ))) : List (List ℚ) :=
  blocks.foldr (fun b acc => List.zipWith (· ++ ·) b acc) (List.replicate ch [])

/-- A conforming byte view (an honest empty `Uint8Array`): passes
`isTypedArray` and the view-construction bounds check. -/
def goodInput : FeedInput :=
  { truthy := true, byteLengthIsNumber := true, bufferIsArrayBuffer := true,
    byteLength := 0, byteOffset := 0, bufferByteLength := 0 }

/-- Feeding a sequence of successfully decoded packets, one `feed` call per
packet. -/
def feedAll (s : PlayerState) (rs : List DecodeResult) : PlayerState :=
  rs.foldl (fun s r => (feed s goodInput (Except.ok r)).1) s

/-- All reads `channelData[c][i]` performed by the interleave loop are
in-bounds (and the `channelData[0].length` access itself is legal). -/
def interleaveReadsInBounds (channelData : List (List ℚ)) : Prop :=
  channelData ≠ [] ∧
    ∀ c, c < channelData.length →
      ∀ i, i < (channelData.headD []).length → i < (channelData.getD c []).length

/-! ### Helper lemmas about `flush` -/

/-- In the underrun branch (`fullFrames === 0`) `flush` returns without
touching any state. -/
theorem flush_of_underrun (s : PlayerState) (now : ℚ) (h0 : fullFrames s = 0) :
    flush s now = (s, none) := by
  unfold flush
  rw [if_pos h0]

/-- Closed form of an emitting `flush` call. -/
theorem flush_of_emit (s : PlayerState) (now : ℚ) (h0 : fullFrames s ≠ 0) :
    flush s now =
      ({ s with
          startTime := (if s.startTime < now then now else s.startTime) +
            ((frameSamples s * fullFrames s : ℕ) : ℚ) / ((effSampleRate s : ℕ) : ℚ),
          samples := s.samples.drop (fullFrames s * frameSize s) },
       some { channels := effChannels s
              bufferLen := frameSamples s * fullFrames s
              sampleRate := effSampleRate s
              channelData := deinterleave (effChannels s) (frameSamples s * fullFrames s) s.samples
              start := if s.startTime < now then now else s.startTime }) := by
  unfold flush
  rw [if_neg h0]
  rfl

/-- A single `flush` never moves the virtual clock backwards. -/
theorem startTime_le_flush (s : PlayerState) (now : ℚ) :
    s.startTime ≤ ((flush s now).1).startTime := by
  by_cases h0 : fullFrames s = 0
  · rw [flush_of_underrun s now h0]
  · rw [flush_of_emit s now h0]
    have hdur : (0 : ℚ) ≤ ((frameSamples s * fullFrames s : ℕ) : ℚ) / ((effSampleRate s : ℕ) : ℚ) :=
      div_nonneg (Nat.cast_nonneg _) (Nat.cast_nonneg _)
    dsimp only
    split
    · next hlt => linarith
    · next hge => linarith

/-! ### Helper lemmas about `interleave` and `deinterleave` -/

/-- Indexing into the flattening of a list of equal-length blocks. -/
theorem getD_flatten_uniform {α : Type} (d : α) (k : ℕ) :
    ∀ (L : List (List α)) (q r : ℕ), (∀ l ∈ L, l.length = k) → q < L.length → r < k →
      L.flatten.getD (q * k + r) d = (L.getD q []).getD r d := by
  intro L
  induction L with
  | nil =>
    intro q r _ hq _
    exact absurd hq (by simp)
  | cons a L ih =>
    intro q r hk hq hr
    have ha : a.length = k := hk a (by simp)
    match q with
    | 0 =>
      rw [List.flatten_cons]
      simp only [Nat.zero_mul, Nat.zero_add]
      rw [List.getD_append _ _ _ _ (by omega)]
      rfl
    | q + 1 =>
      rw [List.flatten_cons]
      have hidx : (q + 1) * k + r = a.length + (q * k + r) := by rw [ha]; ring
      rw [hidx, List.getD_append_right _ _ _ _ (by omega)]
      have hsub : a.length + (q * k + r) - a.length = q * k + r := by omega
      rw [hsub]
      exact ih q r (fun l hl => hk l (by simp [hl])) (by simpa using hq) hr

/-- The interleave loop writes `channelData[c][i]` at flat index
`i * channelCount + c`. -/
theorem interleave_getD {cd : List (List ℚ)} {i c : ℕ}
    (hi : i < (cd.headD []).length) (hc : c < cd.length) :
    (interleave cd).getD (i * cd.length + c) 0 = (cd.getD c []).getD i 0 := by
  unfold interleave
  rw [getD_flatten_uniform 0 cd.length _ i c
    (by
      intro l hl
      simp only [List.mem_map, List.mem_range] at hl
      obtain ⟨i', _, rfl⟩ := hl
      simp)
    (by simpa using hi) hc]
  have hlen : i < ((List.range (cd.headD []).length).map (fun i =>
      (List.range cd.length).map (fun c => ((cd.getD c []).getD i 0)))).length := by
    simpa using hi
  rw [List.getD_eq_getElem _ _ hlen, List.getElem_map, List.getElem_range]
  have hlen2 : c < ((List.range cd.length).map (fun c => ((cd.getD c []).getD i 0))).length := by
    simpa using hc
  rw [List.getD_eq_getElem _ _ hlen2, List.getElem_map, List.getElem_range]

/-- The block appended by the interleave loop has `len * ch` samples, where
`len = channelData[0].length` and `ch = channelData.length` — independently of
the other channels' actual lengths. -/
theorem interleave_length (cd : List (List ℚ)) :
    (interleave cd).length = (cd.headD []).length * cd.length := by
  unfold interleave
  rw [List.length_flatten, List.map_map]
  have hconst : (List.length ∘ fun i =>
      (List.range cd.length).map (fun c => ((cd.getD c []).getD i 0))) = fun _ => cd.length := by
    funext i
    simp
  rw [hconst, List.map_const', List.sum_replicate, List.length_range, smul_eq_mul]

theorem deinterleave_length (ch n : ℕ) (xs : List ℚ) :
    (deinterleave ch n xs).length = ch := by
  simp [deinterleave]

theorem deinterleave_mem_length {ch n : ℕ} {xs : List ℚ} :
    ∀ l ∈ deinterleave ch n xs, l.length = n := by
  intro l hl
  simp only [deinterleave, List.mem_map, List.mem_range] at hl
  obtain ⟨c, _, rfl⟩ := hl
  simp

/-- Channel `c` built by the de-interleave loop reads flat indices
`i * channels + c`. -/
theorem deinterleave_getD {ch n : ℕ} {xs : List ℚ} {c : ℕ} (hc : c < ch) :
    (deinterleave ch n xs).getD c [] =
      (List.range n).map (fun i => xs.getD (i * ch + c) 0) := by
  unfold deinterleave
  have hlen : c < ((List.range ch).map (fun c =>
      (List.range n).map (fun i => xs.getD (i * ch + c) 0))).length := by
    simpa using hc
  rw [List.getD_eq_getElem _ _ hlen, List.getElem_map, List.getElem_range]

theorem getD_drop (xs : List ℚ) (ch k : ℕ) :
    (xs.drop ch).getD k 0 = xs.getD (ch + k) 0 := by
  by_cases h : ch + k < xs.length
  · rw [List.getD_eq_getElem _ _ (by simp [List.length_drop]; omega),
      List.getD_eq_getElem _ _ h, List.getElem_drop]
  · rw [List.getD_eq_default _ _ (by simp [List.length_drop]; omega),
      List.getD_eq_default _ _ (by omega)]

theorem map_range_getD_eq_take {xs : List ℚ} {ch : ℕ} (h : ch ≤ xs.length) :
    (List.range ch).map (fun c => xs.getD c 0) = xs.take ch := by
  apply List.ext_getElem
  · simp
    omega
  · intro c h1 h2
    rw [List.getElem_map, List.getElem_range, List.getElem_take]
    rw [List.getD_eq_getElem _ _ (by simp at h1; omega)]

/-- Flattening the frames `[xs[i*ch+0], …, xs[i*ch+(ch-1)]]` for `i < n`
reassembles `xs` when `xs` has exactly `n * ch` samples. -/
theorem flatten_frames (ch : ℕ) :
    ∀ (n : ℕ) (xs : List ℚ), xs.length = n * ch →
      ((List.range n).map (fun i =>
        (List.range ch).map (fun c => xs.getD (i * ch + c) 0))).flatten = xs := by
  intro n
  induction n with
  | zero =>
    intro xs h
    simp only [Nat.zero_mul] at h
    simp [List.length_eq_zero.mp h]
  | succ n ih =>
    intro xs h
    rw [List.range_succ_eq_map, List.map_cons, List.flatten_cons, List.map_map]
    have h1 : (List.range ch).map (fun c => xs.getD (0 * ch + c) 0) = xs.take ch := by
      simp only [Nat.zero_mul, Nat.zero_add]
      exact map_range_getD_eq_take (by rw [h, Nat.succ_mul]; omega)
    have h2 : (List.range n).map
        ((fun i => (List.range ch).map (fun c => xs.getD (i * ch + c) 0)) ∘ Nat.succ) =
        (List.range n).map (fun i =>
          (List.range ch).map (fun c => (xs.drop ch).getD (i * ch + c) 0)) := by
      apply List.map_congr_left
      intro i _
      simp only [Function.comp]
      apply List.map_congr_left
      intro c _
      have hidx : Nat.succ i * ch + c = ch + (i * ch + c) := by rw [Nat.succ_mul]; ring
      rw [hidx, getD_drop]
    have hdroplen : (xs.drop ch).length = n * ch := by
      rw [List.length_drop, h, Nat.succ_mul]
      omega
    rw [h1, h2, ih (xs.drop ch) hdroplen, List.take_append_drop]

theorem deinterleave_headD {ch : ℕ} (n : ℕ) (hch : 0 < ch) (xs : List ℚ) :
    ((deinterleave ch n xs).headD []).length = n := by
  match ch, hch with
  | ch' + 1, _ => simp [deinterleave, List.range_succ_eq_map]

/-- De-interleaving recovers the planar channels that were interleaved. -/
theorem deinterleave_interleave {cd : List (List ℚ)} {ch n : ℕ}
    (hch : cd.length = ch) (hn : ∀ l ∈ cd, l.length = n) :
    deinterleave ch n (interleave cd) = cd := by
  apply List.ext_getElem
  · rw [deinterleave_length, hch]
  · intro c h1 h2
    have hc : c < ch := by rwa [deinterleave_length] at h1
    have hcd : c < cd.length := by omega
    have hhead : (cd.headD []).length = n := by
      cases cd with
      | nil => simp at hcd
      | cons a l => exact hn a (by simp)
    rw [← List.getD_eq_getElem _ [] h1, deinterleave_getD hc]
    apply List.ext_getElem
    · simp only [List.length_map, List.length_range]
      exact (hn _ (List.getElem_mem hcd)).symm
    · intro i hi1 hi2
      have hi : i < n := by simpa using hi1
      rw [List.getElem_map, List.getElem_range]
      have hidx : i * ch + c = i * cd.length + c := by rw [hch]
      rw [hidx, interleave_getD (by omega) hcd]
      rw [List.getD_eq_getElem _ _ hcd, List.getD_eq_getElem _ _ hi2]

/-- Interleaving the channels produced by de-interleaving reassembles the
original flat sample sequence (on a whole number of frames). -/
theorem interleave_deinterleave {ch n : ℕ} {xs : List ℚ} (hxs : xs.length = n * ch) :
    interleave (deinterleave ch n xs) = xs := by
  rcases Nat.eq_zero_or_pos ch with hch0 | hchpos
  · subst hch0
    simp only [Nat.mul_zero] at hxs
    simp [deinterleave, interleave, List.length_eq_zero.mp hxs]
  · unfold interleave
    rw [deinterleave_headD n hchpos, deinterleave_length]
    have hcongr : (List.range n).map (fun i =>
        (List.range ch).map (fun c => ((deinterleave ch n xs).getD c []).getD i 0)) =
        (List.range n).map (fun i =>
          (List.range ch).map (fun c => xs.getD (i * ch + c) 0)) := by
      apply List.map_congr_left
      intro i hi
      apply List.map_congr_left
      intro c hc
      simp only [List.mem_range] at hi hc
      rw [deinterleave_getD hc,
        List.getD_eq_getElem _ _ (by simpa using hi), List.getElem_map, List.getElem_range]
    rw [hcongr, flatten_frames ch n xs hxs]

theorem interleave_replicate_nil (ch : ℕ) :
    interleave (List.replicate ch ([] : List ℚ)) = [] := by
  cases ch <;> simp [interleave, List.replicate_succ]

/-- Interleaving distributes over channel-wise concatenation of two uniform
planar blocks. -/
theorem interleave_zipWith_append {b d : List (List ℚ)} {ch n m : ℕ}
    (hbl : b.length = ch) (hbn : ∀ l ∈ b, l.length = n)
    (hdl : d.length = ch) (hdm : ∀ l ∈ d, l.length = m) :
    interleave (List.zipWith (· ++ ·) b d) = interleave b ++ interleave d := by
  rcases Nat.eq_zero_or_pos ch with hch0 | hchpos
  · subst hch0
    rw [List.length_eq_zero.mp hbl, List.length_eq_zero.mp hdl]
    simp [interleave]
  · have hbhead : (b.headD []).length = n := by
      cases b with
      | nil => simp at hbl; omega
      | cons a l => exact hbn a (by simp)
    have hdhead : (d.headD []).length = m := by
      cases d with
      | nil => simp at hdl; omega
      | cons a l => exact hdm a (by simp)
    have hLlen : (List.zipWith (· ++ ·) b d).length = ch := by
      rw [List.length_zipWith, hbl, hdl]
      simp
    have hLhead : ((List.zipWith (· ++ ·) b d).headD []).length = n + m := by
      cases b with
      | nil => simp at hbl; omega
      | cons a l =>
        cases d with
        | nil => simp at hdl; omega
        | cons a' l' =>
          simp only [List.zipWith_cons_cons, List.headD_cons, List.length_append]
          rw [hbn a (by simp), hdm a' (by simp)]
    have hbgetD : ∀ c, c < ch → (b.getD c []).length = n := by
      intro c hc
      rw [List.getD_eq_getElem _ _ (by omega)]
      exact hbn _ (List.getElem_mem _)
    have hLgetD : ∀ c, c < ch →
        (List.zipWith (· ++ ·) b d).getD c [] = b.getD c [] ++ d.getD c [] := by
      intro c hc
      rw [List.getD_eq_getElem _ _ (by rw [hLlen]; omega), List.getElem_zipWith,
        List.getD_eq_getElem _ _ (by omega), List.getD_eq_getElem _ _ (by omega)]
    unfold interleave
    rw [hLhead, hLlen, hbhead, hbl, hdhead, hdl,
      List.range_add, List.map_append, List.flatten_append]
    congr 1
    · apply congrArg List.flatten
      apply List.map_congr_left
      intro i hi
      apply List.map_congr_left
      intro c hc
      simp only [List.mem_range] at hi hc
      rw [hLgetD c hc, List.getD_append _ _ _ _ (by rw [hbgetD c hc]; omega)]
    · rw [List.map_map]
      apply congrArg List.flatten
      apply List.map_congr_left
      intro i hi
      simp only [List.mem_range] at hi
      simp only [Function.comp]
      apply List.map_congr_left
      intro c hc
      simp only [List.mem_range] at hc
      rw [hLgetD c hc, List.getD_append_right _ _ _ _ (by rw [hbgetD c hc]; omega)]
      have hsub : n + i - (b.getD c []).length = i := by rw [hbgetD c hc]; omega
      rw [hsub]

/-- Channel-wise concatenation of uniform blocks is itself uniform. -/
theorem chanConcat_uniform (ch : ℕ) (blocks : List (List (List ℚ)))
    (h : ∀ b ∈ blocks, b.length = ch ∧ ∃ n, ∀ l ∈ b, l.length = n) :
    (chanConcat ch blocks).length = ch ∧
      ∃ m, ∀ l ∈ chanConcat ch blocks, l.length = m := by
  induction blocks with
  | nil =>
    refine ⟨by simp [chanConcat], 0, ?_⟩
    intro l hl
    simp only [chanConcat, List.foldr_nil] at hl
    simp [List.eq_of_mem_replicate hl]
  | cons b bs ih =>
    obtain ⟨hlen, n, hn⟩ := h b (by simp)
    obtain ⟨ihlen, m, hm⟩ := ih (fun b' hb' => h b' (by simp [hb']))
    have hcc : chanConcat ch (b :: bs) = List.zipWith (· ++ ·) b (chanConcat ch bs) := rfl
    constructor
    · rw [hcc, List.length_zipWith, hlen, ihlen]
      simp
    · refine ⟨n + m, ?_⟩
      intro l hl
      rw [hcc, List.mem_iff_getElem] at hl
      obtain ⟨c, hcl, rfl⟩ := hl
      rw [List.getElem_zipWith, List.length_append,
        hn _ (List.getElem_mem _), hm _ (List.getElem_mem _)]

/-! ### Helper lemmas about `feed` -/

/-- Closed form of a `feed` call whose input passes the guard and the view
construction, and whose packet decodes to at least one channel. -/
theorem feed_ok_eq (s : PlayerState) (data : FeedInput) (r : DecodeResult)
    (hguard : isTypedArray data = true)
    (hrange : data.byteOffset + data.byteLength ≤ data.bufferByteLength)
    (hne : r.channelData ≠ []) :
    feed s data (Except.ok r) =
      (let s1 := if s.decodedSampleRate.isNone then
          { s with decodedSampleRate := some r.sampleRate,
                   decodedChannels := some r.channelData.length }
        else s
      ({ s1 with samples := s1.samples ++ interleave r.channelData }, none)) := by
  unfold feed
  rw [hguard]
  simp only [Bool.not_true, Bool.false_eq_true, if_false]
  rw [if_neg (by omega)]
  rw [if_neg (by simpa [List.isEmpty_iff] using hne)]

/-- The backlog effect of a successful `feed`: append the interleaved block. -/
theorem feed_ok_samples (s : PlayerState) (data : FeedInput) (r : DecodeResult)
    (hguard : isTypedArray data = true)
    (hrange : data.byteOffset + data.byteLength ≤ data.bufferByteLength)
    (hne : r.channelData ≠ []) :
    (feed s data (Except.ok r)).1.samples = s.samples ++ interleave r.channelData ∧
      (feed s data (Except.ok r)).2 = none := by
  rw [feed_ok_eq s data r hguard hrange hne]
  by_cases hlat : s.decodedSampleRate.isNone <;> simp [hlat]

/-! ### Concrete example states (used by witnesses and counterexamples) -/

/-- A deliberately tiny configuration: 1 channel, 1 Hz, 1000 ms flush tick,
so one frame is a single sample and one buffer lasts one second. -/
def tinyOptions : Options :=
  { encoding := Encoding.int16, channels := 1, sampleRate := 1, flushingTime := 1000 }

def s1ex : PlayerState :=
  { option := tinyOptions, samples := [5], startTime := 0,
    decodedSampleRate := some 1, decodedChannels := some 1,
    timerActive := true, sinkClosed := false }

def s1ex' : PlayerState := { s1ex with samples := [], startTime := 1 }

def b1ex : EmittedBuffer :=
  { channels := 1, bufferLen := 1, sampleRate := 1, channelData := [[5]], start := 0 }

def s2ex : PlayerState := { s1ex with samples := [7], startTime := 1 }

def s2ex' : PlayerState := { s1ex with samples := [], startTime := 2 }

def b2ex : EmittedBuffer :=
  { channels := 1, bufferLen := 1, sampleRate := 1, channelData := [[7]], start := 1 }

/-- 1 channel at 2 Hz with a 1000 ms tick: one frame is 2 interleaved
samples. -/
def drainOptions : Options :=
  { encoding := Encoding.int16, channels := 1, sampleRate := 2, flushingTime := 1000 }

def sDrainEx : PlayerState :=
  { option := drainOptions, samples := [1, 2, 3], startTime := 0,
    decodedSampleRate := none, decodedChannels := none,
    timerActive := true, sinkClosed := false }

def sUnderEx : PlayerState := { sDrainEx with samples := [1] }

/-- A fresh player with the default configuration and nothing decoded yet. -/
def sDefEx : PlayerState :=
  { option := defaultOptions, samples := [], startTime := 0,
    decodedSampleRate := none, decodedChannels := none,
    timerActive := true, sinkClosed := false }

/-- A stereo decode result: two channels of two samples. -/
def r4ex : DecodeResult := { channelData := [[1, 2], [3, 4]], sampleRate := 48000 }

/-- A crafted object that passes `isTypedArray` (truthy, numeric
`byteLength`, `ArrayBuffer` backing) but declares 100 bytes over a 4-byte
buffer. -/
def badViewEx : FeedInput :=
  { truthy := true, byteLengthIsNumber := true, bufferIsArrayBuffer := true,
    byteLength := 100, byteOffset := 0, bufferByteLength := 4 }

/-- A value that fails `isTypedArray` (e.g. `null`). -/
def nonViewEx : FeedInput :=
  { truthy := false, byteLengthIsNumber := false, bufferIsArrayBuffer := false,
    byteLength := 0, byteOffset := 0, bufferByteLength := 0 }

/-- Inversion of an emitting `flush`: the emitted start time is the virtual
clock clamped forward to `now`, and the post-state clock is that start plus
the emitted buffer's duration. -/
theorem flush_emit_start {s s' : PlayerState} {t : ℚ} {b : EmittedBuffer}
    (h : flush s t = (s', some b)) :
    b.start = (if s.startTime < t then t else s.startTime) ∧
    s'.startTime = b.start + b.duration := by
  by_cases h0 : fullFrames s = 0
  · rw [flush_of_underrun s t h0] at h
    simp at h
  · rw [flush_of_emit s t h0] at h
    injection h with hs hb
    injection hb with hb
    subst hb
    refine ⟨rfl, ?_⟩
    rw [← hs]
    rfl

/-! ### The claims -/

/-- C1, counterexample to the claim as stated: two successive flush
invocations both emit (no underrun anywhere — every sample fed is played),
yet the second buffer starts at the sink's current time 5, not at the first
buffer's start plus its duration (0 + 1): the clamp-forward fires because the
sink's clock outran the virtual clock between the two flushes. -/
theorem flush_contiguity_counterexample :
    flush s1ex 0 = (s1ex', some b1ex) ∧
    b1ex.start + b1ex.duration = 1 ∧
    (feed s1ex' goodInput (Except.ok { channelData := [[7]], sampleRate := 1 })).1 = s2ex ∧
    (flush s2ex 5).2.map EmittedBuffer.start = some 5 ∧
    (5 : ℚ) ≠ 1 := by
  refine ⟨?_, ?_, by decide, ?_, by norm_num⟩
  · rw [flush_of_emit s1ex 0 (by decide)]
    simp [s1ex, s1ex', b1ex, tinyOptions, frameSamples, effSampleRate, effChannels, jsOrNat,
      fullFrames, frameSize, deinterleave, EmittedBuffer.duration]
    decide
  · simp [b1ex, EmittedBuffer.duration]
  · rw [flush_of_emit s2ex 5 (by decide)]
    simp [s2ex, s1ex, tinyOptions, frameSamples, effSampleRate, effChannels, jsOrNat,
      fullFrames, frameSize]

/-- C1, amended: for successive emitting flushes the emitted intervals never
overlap (the second start is at least first start + first duration), and they
are exactly contiguous provided the sink's current time at the second flush
has not outrun the advanced virtual clock (no clamp-forward at the second
flush). -/
theorem flush_buffers_contiguous (s1 s1' s2 s2' : PlayerState)
    (t1 t2 : ℚ) (b1 b2 : EmittedBuffer)
    (h1 : flush s1 t1 = (s1', some b1))
    (h12 : s2.startTime = s1'.startTime)
    (h2 : flush s2 t2 = (s2', some b2)) :
    b1.start + b1.duration ≤ b2.start ∧
    (t2 ≤ b1.start + b1.duration → b2.start = b1.start + b1.duration) := by
  obtain ⟨_, hs1'⟩ := flush_emit_start h1
  obtain ⟨hb2s, _⟩ := flush_emit_start h2
  rw [h12, hs1'] at hb2s
  by_cases hc : b1.start + b1.duration < t2
  · rw [if_pos hc] at hb2s
    constructor
    · rw [hb2s]
      exact le_of_lt hc
    · intro hle
      exact absurd hc (not_lt.mpr hle)
  · rw [if_neg hc] at hb2s
    exact ⟨hb2s ▸ le_refl _, fun _ => hb2s⟩

/-- C1, witness for the amended theorem at a concrete pair of flushes with no
clock drift. -/
theorem flush_buffers_contiguous_witness :
    b1ex.start + b1ex.duration ≤ b2ex.start ∧
    ((1 : ℚ) ≤ b1ex.start + b1ex.duration → b2ex.start = b1ex.start + b1ex.duration) :=
  flush_buffers_contiguous s1ex s1ex' s2ex ((flush s2ex 1).1) 0 1 b1ex b2ex
    (by
      rw [flush_of_emit s1ex 0 (by decide)]
      simp [s1ex, s1ex', b1ex, tinyOptions, frameSamples, effSampleRate, effChannels, jsOrNat,
        fullFrames, frameSize, deinterleave, EmittedBuffer.duration]
      decide)
    (by decide)
    (by
      have h : (flush s2ex 1).2 = some b2ex := by
        rw [flush_of_emit s2ex 1 (by decide)]
        simp [s2ex, s1ex, b2ex, tinyOptions, frameSamples, effSampleRate, effChannels, jsOrNat,
          fullFrames, frameSize]
        decide
      rw [← h])

/-- C2: every emitted buffer is scheduled no earlier than the sink's current
time at the moment of scheduling, and across any sequence of flush calls the
virtual clock `startTime` never decreases. -/
theorem flush_start_not_before_now_and_clock_monotone (s : PlayerState) (t : ℚ) :
    (∀ b, (flush s t).2 = some b → t ≤ b.start) ∧
    (∀ ts : List ℚ, s.startTime ≤ (flushSeq s ts).startTime) := by
  constructor
  · intro b hb
    have h : flush s t = ((flush s t).1, some b) := by rw [← hb]
    obtain ⟨hbs, _⟩ := flush_emit_start h
    rw [hbs]
    split
    · exact le_refl t
    · next hge => exact not_lt.mp hge
  · intro ts
    induction ts generalizing s with
    | nil => simp [flushSeq]
    | cons t' ts ih =>
      have hstep : flushSeq s (t' :: ts) = flushSeq (flush s t').1 ts := rfl
      rw [hstep]
      exact le_trans (startTime_le_flush s t') (ih _)

/-- C2, witness at a concrete emitting flush and a concrete flush sequence. -/
theorem flush_start_not_before_now_witness :
    ((0 : ℚ) ≤ b1ex.start) ∧ s1ex.startTime ≤ (flushSeq s1ex [0, 5]).startTime :=
  ⟨(flush_start_not_before_now_and_clock_monotone s1ex 0).1 b1ex
    (by
      rw [flush_of_emit s1ex 0 (by decide)]
      simp [s1ex, b1ex, tinyOptions, frameSamples, effSampleRate, effChannels, jsOrNat,
        fullFrames, frameSize]
      decide),
   (flush_start_not_before_now_and_clock_monotone s1ex 0).2 [0, 5]⟩

/-- C3: with fewer than one full frame buffered (`fullFrames = 0`) `flush`
returns with no emission and no state change (in the model `flush` is a total
function, so this branch cannot throw); otherwise it emits and consumes
exactly `fullFrames * frameSize` samples from the front of the backlog,
leaving strictly less than one frame's interleaved size.  The positivity
hypothesis `0 < frameSize s` matches the JavaScript arithmetic: with a zero
frame size `Math.floor(length / 0)` is never `=== 0`. -/
theorem flush_underrun_noop_or_drains (s : PlayerState) (t : ℚ) :
    (fullFrames s = 0 → flush s t = (s, none)) ∧
    (0 < frameSize s → fullFrames s ≠ 0 →
      fullFrames s * frameSize s ≤ s.samples.length ∧
      (flush s t).1.samples = s.samples.drop (fullFrames s * frameSize s) ∧
      (flush s t).2 ≠ none ∧
      (flush s t).1.samples.length < frameSize s) := by
  constructor
  · exact fun h0 => flush_of_underrun s t h0
  · intro hfs h0
    rw [flush_of_emit s t h0]
    refine ⟨?_, rfl, by simp, ?_⟩
    · unfold fullFrames
      exact Nat.div_mul_le_self _ _
    · simp only [List.length_drop]
      have hmod := Nat.mod_lt s.samples.length hfs
      have hdm := Nat.div_add_mod' s.samples.length (frameSize s)
      unfold fullFrames
      generalize hA : s.samples.length / frameSize s * frameSize s = A at hdm ⊢
      generalize hB : s.samples.length % frameSize s = B at hdm hmod
      omega

/-- C3, witness: a concrete underrun no-op and a concrete draining flush. -/
theorem flush_underrun_noop_or_drains_witness :
    flush sUnderEx 0 = (sUnderEx, none) ∧
    (fullFrames sDrainEx * frameSize sDrainEx ≤ sDrainEx.samples.length ∧
      (flush sDrainEx 0).1.samples =
        sDrainEx.samples.drop (fullFrames sDrainEx * frameSize sDrainEx) ∧
      (flush sDrainEx 0).2 ≠ none ∧
      (flush sDrainEx 0).1.samples.length < frameSize sDrainEx) :=
  ⟨(flush_underrun_noop_or_drains sUnderEx 0).1 (by decide),
   (flush_underrun_noop_or_drains sDrainEx 0).2 (by decide) (by decide)⟩

/-- C4: a successful `feed` of a block with `channelCount` channels of `n`
samples each appends to the backlog an interleaved block of length
`n * channelCount` in which output index `i * channelCount + c` holds channel
`c`'s sample `i`. -/
theorem feed_appends_interleaved (s : PlayerState) (data : FeedInput) (r : DecodeResult) (n : ℕ)
    (hguard : isTypedArray data = true)
    (hrange : data.byteOffset + data.byteLength ≤ data.bufferByteLength)
    (hne : r.channelData ≠ [])
    (hn : ∀ l ∈ r.channelData, l.length = n) :
    (feed s data (Except.ok r)).1.samples = s.samples ++ interleave r.channelData ∧
    (interleave r.channelData).length = n * r.channelData.length ∧
    ∀ c, c < r.channelData.length → ∀ i, i < n →
      (interleave r.channelData).getD (i * r.channelData.length + c) 0 =
        (r.channelData.getD c []).getD i 0 := by
  have hhead : (r.channelData.headD []).length = n := by
    cases hcd : r.channelData with
    | nil => exact absurd hcd hne
    | cons a l =>
      have ha : a ∈ r.channelData := by rw [hcd]; simp
      simpa using hn a ha
  refine ⟨(feed_ok_samples s data r hguard hrange hne).1, ?_, ?_⟩
  · rw [interleave_length, hhead]
  · intro c hc i hi
    exact interleave_getD (by omega) hc

/-- C4, witness at a concrete stereo block of two samples per channel. -/
theorem feed_appends_interleaved_witness :
    (feed sDefEx goodInput (Except.ok r4ex)).1.samples =
      sDefEx.samples ++ interleave r4ex.channelData ∧
    (interleave r4ex.channelData).length = 2 * r4ex.channelData.length ∧
    (interleave r4ex.channelData).getD (1 * r4ex.channelData.length + 0) 0 =
      (r4ex.channelData.getD 0 []).getD 1 0 := by
  obtain ⟨h1, h2, h3⟩ := feed_appends_interleaved sDefEx goodInput r4ex 2
    (by decide) (by decide) (by decide) (by decide)
  exact ⟨h1, h2, h3 0 (by decide) 1 (by decide)⟩

/-- C5: feeding any sequence of successfully decoded blocks (one `feed` call
per block) leaves the same backlog as interleaving their channel-wise
concatenation fed as one block. -/
theorem feed_chunking_invariance (s : PlayerState) (ch : ℕ) (rs : List DecodeResult)
    (hch : 0 < ch)
    (hblocks : ∀ r ∈ rs, r.channelData.length = ch ∧
      ∃ n, ∀ l ∈ r.channelData, l.length = n) :
    (feedAll s rs).samples =
      s.samples ++ interleave (chanConcat ch (rs.map (fun r => r.channelData))) := by
  induction rs generalizing s with
  | nil =>
    simp [feedAll, chanConcat, interleave_replicate_nil]
  | cons r rs ih =>
    obtain ⟨hlen, n, hn⟩ := hblocks r (by simp)
    have hne : r.channelData ≠ [] := by
      intro hempty
      rw [hempty] at hlen
      simp at hlen
      omega
    have hstep := feed_ok_samples s goodInput r (by decide) (by decide) hne
    have hAll : feedAll s (r :: rs) = feedAll (feed s goodInput (Except.ok r)).1 rs := rfl
    obtain ⟨cclen, m, hm⟩ := chanConcat_uniform ch (rs.map (fun r => r.channelData)) (by
      intro b hb
      simp only [List.mem_map] at hb
      obtain ⟨r', hr', rfl⟩ := hb
      exact hblocks r' (by simp [hr']))
    rw [hAll, ih _ (fun r' hr' => hblocks r' (by simp [hr'])), hstep.1, List.append_assoc]
    congr 1
    have hcc : chanConcat ch ((r :: rs).map (fun r => r.channelData)) =
        List.zipWith (· ++ ·) r.channelData (chanConcat ch (rs.map (fun r => r.channelData))) :=
      rfl
    rw [hcc, interleave_zipWith_append hlen hn cclen hm]

/-- Two stereo packets: one sample per channel, then two samples per
channel. -/
def rs5ex : List DecodeResult :=
  [{ channelData := [[1], [2]], sampleRate := 48000 },
   { channelData := [[3, 4], [5, 6]], sampleRate := 48000 }]

/-- C5, witness: feeding the two packets of `rs5ex` one by one equals
interleaving their channel-wise concatenation. -/
theorem feed_chunking_invariance_witness :
    (feedAll sDefEx rs5ex).samples =
      sDefEx.samples ++ interleave (chanConcat 2 (rs5ex.map (fun r => r.channelData))) :=
  feed_chunking_invariance sDefEx 2 rs5ex (by decide)
    (by
      intro r hr
      simp only [rs5ex, List.mem_cons, List.not_mem_nil, or_false] at hr
      rcases hr with rfl | rfl
      · exact ⟨rfl, 1, by decide⟩
      · exact ⟨rfl, 2, by decide⟩)

/-- C6: `flush`'s de-interleave recovers exactly the planar channels that
`feed`'s interleave packed (and interleaving the de-interleaved channels
reassembles the flat samples): the two transforms are mutually inverse on
complete frames. -/
theorem interleave_deinterleave_mutually_inverse (cd : List (List ℚ)) (xs : List ℚ) (ch n : ℕ)
    (hch : cd.length = ch) (hn : ∀ l ∈ cd, l.length = n) (hxs : xs.length = n * ch) :
    deinterleave ch n (interleave cd) = cd ∧ interleave (deinterleave ch n xs) = xs :=
  ⟨deinterleave_interleave hch hn, interleave_deinterleave hxs⟩

/-- C6, witness on a concrete stereo block and its interleaved form. -/
theorem interleave_deinterleave_mutually_inverse_witness :
    deinterleave 2 2 (interleave [[(1 : ℚ), 2], [3, 4]]) = [[(1 : ℚ), 2], [3, 4]] ∧
    interleave (deinterleave 2 2 [(1 : ℚ), 3, 2, 4]) = [(1 : ℚ), 3, 2, 4] :=
  interleave_deinterleave_mutually_inverse [[(1 : ℚ), 2], [3, 4]] [(1 : ℚ), 3, 2, 4] 2 2
    (by decide) (by decide) (by decide)

theorem jsOrNat_some_pos {v : ℕ} (d : ℕ) (hv : v ≠ 0) : jsOrNat (some v) d = v := by
  unfold jsOrNat
  simp [hv]

/-- Once the format is latched (`_decodedSampleRate` not `null`), no `feed`
path can change either latched field. -/
theorem feed_preserves_latched (s : PlayerState) (data : FeedInput)
    (dec : Except Unit DecodeResult) (h : s.decodedSampleRate.isNone = false) :
    (feed s data dec).1.decodedSampleRate = s.decodedSampleRate ∧
    (feed s data dec).1.decodedChannels = s.decodedChannels := by
  refine ⟨?_, ?_⟩
  all_goals
    unfold feed
    split
    · rfl
    · split
      · rfl
      · cases dec with
        | error e => rfl
        | ok r =>
          simp only [h, Bool.false_eq_true, if_false]
          split
          · rfl
          · rfl

/-- C7: the decoded `StreamFormat` is latched exactly once — on the first
successful decode — and never changes afterwards (`feed`, `flush` and
`destroy` all preserve it); `flush` resolves its effective format to the
latched values when they are set (and positive, mirroring the JavaScript
`||` fallback on which `0` is falsy) and to the configured defaults
otherwise. -/
theorem format_latched_once_and_used (s : PlayerState) (data : FeedInput)
    (r : DecodeResult) (dec : Except Unit DecodeResult) :
    (s.decodedSampleRate = none → isTypedArray data = true →
      data.byteOffset + data.byteLength ≤ data.bufferByteLength →
      (feed s data (Except.ok r)).1.decodedSampleRate = some r.sampleRate ∧
      (feed s data (Except.ok r)).1.decodedChannels = some r.channelData.length) ∧
    (∀ sr0 ch0, s.decodedSampleRate = some sr0 → s.decodedChannels = some ch0 →
      (feed s data dec).1.decodedSampleRate = some sr0 ∧
      (feed s data dec).1.decodedChannels = some ch0) ∧
    (∀ t, (flush s t).1.decodedSampleRate = s.decodedSampleRate ∧
      (flush s t).1.decodedChannels = s.decodedChannels) ∧
    ((destroy s).decodedSampleRate = s.decodedSampleRate ∧
      (destroy s).decodedChannels = s.decodedChannels) ∧
    (∀ sr0 ch0, s.decodedSampleRate = some sr0 → 0 < sr0 →
      s.decodedChannels = some ch0 → 0 < ch0 →
      effSampleRate s = sr0 ∧ effChannels s = ch0) ∧
    (s.decodedSampleRate = none → s.decodedChannels = none →
      effSampleRate s = s.option.sampleRate ∧ effChannels s = s.option.channels) := by
  refine ⟨?_, ?_, ?_, ⟨rfl, rfl⟩, ?_, ?_⟩
  · intro hnone hguard hrange
    unfold feed
    rw [hguard]
    simp only [Bool.not_true, Bool.false_eq_true, if_false]
    rw [if_neg (by omega)]
    simp only [hnone, Option.isNone_none, if_true]
    split
    · exact ⟨rfl, rfl⟩
    · exact ⟨rfl, rfl⟩
  · intro sr0 ch0 hsr hch
    have h := feed_preserves_latched s data dec (by rw [hsr]; rfl)
    rw [h.1, h.2, hsr, hch]
    exact ⟨rfl, rfl⟩
  · intro t
    by_cases h0 : fullFrames s = 0
    · rw [flush_of_underrun s t h0]
      exact ⟨rfl, rfl⟩
    · rw [flush_of_emit s t h0]
      exact ⟨rfl, rfl⟩
  · intro sr0 ch0 hsr hsr0 hch hch0
    unfold effSampleRate effChannels
    rw [hsr, hch, jsOrNat_some_pos _ (by omega), jsOrNat_some_pos _ (by omega)]
    exact ⟨rfl, rfl⟩
  · intro hsr hch
    unfold effSampleRate effChannels
    rw [hsr, hch]
    exact ⟨rfl, rfl⟩

/-- C7, witness: a first decode latches the format; afterwards feeds, flushes
and destroy leave it unchanged, and the effective format follows the latch
(or the defaults before it). -/
theorem format_latched_once_and_used_witness :
    ((feed sDefEx goodInput (Except.ok r4ex)).1.decodedSampleRate = some r4ex.sampleRate ∧
      (feed sDefEx goodInput (Except.ok r4ex)).1.decodedChannels =
        some r4ex.channelData.length) ∧
    ((feed s2ex goodInput (Except.ok r4ex)).1.decodedSampleRate = some 1 ∧
      (feed s2ex goodInput (Except.ok r4ex)).1.decodedChannels = some 1) ∧
    ((flush s2ex 5).1.decodedSampleRate = s2ex.decodedSampleRate ∧
      (flush s2ex 5).1.decodedChannels = s2ex.decodedChannels) ∧
    ((destroy s2ex).decodedSampleRate = s2ex.decodedSampleRate ∧
      (destroy s2ex).decodedChannels = s2ex.decodedChannels) ∧
    (effSampleRate s2ex = 1 ∧ effChannels s2ex = 1) ∧
    (effSampleRate sDefEx = sDefEx.option.sampleRate ∧
      effChannels sDefEx = sDefEx.option.channels) :=
  ⟨(format_latched_once_and_used sDefEx goodInput r4ex (Except.ok r4ex)).1
      rfl (by decide) (by decide),
   (format_latched_once_and_used s2ex goodInput r4ex (Except.ok r4ex)).2.1
      1 1 (by decide) (by decide),
   (format_latched_once_and_used s2ex goodInput r4ex (Except.ok r4ex)).2.2.1 5,
   (format_latched_once_and_used s2ex goodInput r4ex (Except.ok r4ex)).2.2.2.1,
   (format_latched_once_and_used s2ex goodInput r4ex (Except.ok r4ex)).2.2.2.2.1
      1 1 (by decide) (by decide) (by decide) (by decide),
   (format_latched_once_and_used sDefEx goodInput r4ex (Except.ok r4ex)).2.2.2.2.2
      rfl rfl⟩

/-- C8, counterexample to the claim as stated: a crafted value that declares
`byteLength` 100 over a 4-byte backing buffer is non-conforming in the
claim's sense, yet it passes the code's `isTypedArray` guard and `feed`
raises a `RangeError` (from the `Uint8Array` constructor) instead of
silently ignoring it. -/
theorem malformed_input_counterexample :
    isTypedArray badViewEx = true ∧
    badViewEx.byteLength ≠ badViewEx.bufferByteLength ∧
    feed sDefEx badViewEx (Except.ok r4ex) = (sDefEx, some FeedError.rangeError) := by
  decide

/-- C8, amended: inputs that fail the `isTypedArray` guard (falsy, or
`byteLength` not a number, or backing buffer not an `ArrayBuffer`) are
silently ignored with no error and no state change; an input that passes the
guard but declares a range beyond its backing buffer raises a `RangeError`
(leaving the state unchanged). -/
theorem feed_nonconforming_silently_ignored (s : PlayerState) (data : FeedInput)
    (dec : Except Unit DecodeResult) :
    (isTypedArray data = false → feed s data dec = (s, none)) ∧
    (isTypedArray data = true → data.bufferByteLength < data.byteOffset + data.byteLength →
      feed s data dec = (s, some FeedError.rangeError)) := by
  constructor
  · intro h
    unfold feed
    rw [h]
    simp
  · intro h hlt
    unfold feed
    rw [h]
    simp only [Bool.not_true, Bool.false_eq_true, if_false]
    rw [if_pos hlt]

/-- C8, witness: a falsy input is ignored without state change; the crafted
over-long view raises the `RangeError`. -/
theorem feed_nonconforming_silently_ignored_witness :
    feed sDefEx nonViewEx (Except.ok r4ex) = (sDefEx, none) ∧
    feed sDefEx badViewEx (Except.ok r4ex) = (sDefEx, some FeedError.rangeError) :=
  ⟨(feed_nonconforming_silently_ignored sDefEx nonViewEx (Except.ok r4ex)).1 (by decide),
   (feed_nonconforming_silently_ignored sDefEx badViewEx (Except.ok r4ex)).2
     (by decide) (by decide)⟩

/-- C9: `destroy` is idempotent — a second `destroy` produces literally the
same state, and after any `destroy` the timer is stopped, the backlog is
empty and the sink is closed. -/
theorem destroy_idempotent (s : PlayerState) :
    destroy (destroy s) = destroy s ∧
    (destroy s).timerActive = false ∧
    (destroy s).samples = [] ∧
    (destroy s).sinkClosed = true :=
  ⟨rfl, rfl, rfl, rfl⟩

/-- C10: the interleave loop always appends `channelData[0].length *
channelData.length` samples, regardless of the other channels' lengths; all
its reads are in-bounds exactly when `channelData` is non-empty and every
channel is at least as long as channel 0; and `feed` cannot fail at this step
whenever the decoder returned at least one channel. -/
theorem interleave_length_and_bounds (cd : List (List ℚ)) :
    (interleave cd).length = (cd.headD []).length * cd.length ∧
    (interleaveReadsInBounds cd ↔
      cd ≠ [] ∧ ∀ l ∈ cd, (cd.headD []).length ≤ l.length) ∧
    (∀ s r, DecodeResult.channelData r = cd → cd ≠ [] →
      (feed s goodInput (Except.ok r)).2 = none) := by
  refine ⟨interleave_length cd, ?_, ?_⟩
  · constructor
    · rintro ⟨hne, hb⟩
      refine ⟨hne, ?_⟩
      intro l hl
      rw [List.mem_iff_getElem] at hl
      obtain ⟨c, hc, rfl⟩ := hl
      rcases Nat.eq_zero_or_pos (cd.headD []).length with h0 | hpos
      · omega
      · have hlast := hb c hc ((cd.headD []).length - 1) (by omega)
        rw [List.getD_eq_getElem _ _ hc] at hlast
        omega
    · rintro ⟨hne, hb⟩
      refine ⟨hne, ?_⟩
      intro c hc i hi
      have hcl := hb (cd.getD c [])
        (by rw [List.getD_eq_getElem _ _ hc]; exact List.getElem_mem _)
      omega
  · intro s r hcd hne
    exact (feed_ok_samples s goodInput r (by decide) (by decide)
      (by rw [hcd]; exact hne)).2

/-- C10, witness: a ragged block still appends `3 * 2` samples; its reads are
out of bounds, while the uniform block's reads are in bounds; and a concrete
successful `feed` raises nothing. -/
theorem interleave_length_and_bounds_witness :
    (interleave [[(1 : ℚ), 2, 3], [4]]).length = 6 ∧
    ¬ interleaveReadsInBounds [[(1 : ℚ), 2, 3], [4]] ∧
    interleaveReadsInBounds [[(1 : ℚ), 2], [3, 4]] ∧
    (feed sDefEx goodInput (Except.ok r4ex)).2 = none := by
  have h1 := interleave_length_and_bounds [[(1 : ℚ), 2, 3], [4]]
  have h2 := interleave_length_and_bounds [[(1 : ℚ), 2], [3, 4]]
  refine ⟨by rw [h1.1]; decide, ?_, ?_, ?_⟩
  · rw [h1.2.1]
    decide
  · rw [h2.2.1]
    decide
  · exact h2.2.2 sDefEx r4ex (by decide) (by decide)

end OpusPlayer
